import Mathlib

/-!
Verification of the codesearch client (router/codesearch.py).

The development has two layers, mirroring the spec's decomposition:

* the line-buffer layer (`findNL`, `handle_input`): the byte buffer is a
  list of characters; `CodeSearch.handle_input` repeatedly strips the
  first newline-terminated record off the front of the buffer;

* the protocol-session layer (`CodeSearch.handle_line`,
  `CodeSearch.wait_ready`, `CodeSearch.search`,
  `CodeSearch.collateMatches`, the module-level facade `search`): each
  socket read is modelled as the list of records that read completes in
  the buffer (the framing itself is verified at the line-buffer layer),
  each record already in its decoded form, with a `malformed`
  constructor standing for a line that the JSON decoder rejects.

Python exceptions are modelled with `Except`; the error type `PyErr`
names the exception classes the source can raise.
-/

namespace Codesearch

/-! ## Line-buffer layer -/

/-- Position of the first newline in the buffer, if any.  Embeds the
source's try/except around str.index: the except branch (pos = -1)
corresponds to `none`. -/
def findNL : List Char → Option Nat
  | [] => none
  | c :: cs => if c = '\n' then some 0 else (findNL cs).map (· + 1)

theorem findNL_nil : findNL [] = none := rfl

theorem findNL_some_lt {b : List Char} {pos : Nat} (h : findNL b = some pos) :
    pos < b.length := by
  induction b generalizing pos with
  | nil => simp [findNL] at h
  | cons c cs ih =>
    rw [List.length_cons]
    by_cases hc : c = '\n'
    · simp [findNL, hc] at h
      omega
    · simp [findNL, hc] at h
      obtain ⟨q, hq, rfl⟩ := h
      have := ih hq
      omega

/-- Embeds CodeSearch.handle_input: while the buffer holds a newline,
slice off the first record (newline stripped) and recurse on the rest of
the buffer.  Returns the drained records in order together with the
remaining (newline-free) buffer.  The per-record dispatch
(CodeSearch.handle_line) is modelled at the session layer. -/
def handle_input (b : List Char) : List (List Char) × List Char :=
  match h : findNL b with
  | some pos =>
    have hlt : (b.drop (pos + 1)).length < b.length := by
      have := findNL_some_lt h
      rw [List.length_drop]
      omega
    let r := handle_input (b.drop (pos + 1))
    (b.take pos :: r.1, r.2)
  | none => ([], b)
termination_by b.length
decreasing_by
  exact hlt

/-- Fuel-indexed variant of `handle_input`, counting the recursive
passes the source makes: `none` means the fuel ran out before the
drain finished. -/
def handle_input_fuel : Nat → List Char → Option (List (List Char) × List Char)
  | 0, _ => none
  | fuel + 1, b =>
    match findNL b with
    | some pos =>
      (handle_input_fuel fuel (b.drop (pos + 1))).map
        (fun r => (b.take pos :: r.1, r.2))
    | none => some ([], b)

/-- Prepends a character to the first record of a split result, or to
the trailing fragment when there is no record yet. -/
def consHead (c : Char) : List (List Char) × List Char → List (List Char) × List Char
  | ([], t) => ([], c :: t)
  | (r :: rs, t) => ((c :: r) :: rs, t)

@[simp] theorem consHead_nil (c : Char) (t : List Char) :
    consHead c ([], t) = ([], c :: t) := rfl

@[simp] theorem consHead_cons (c : Char) (r : List Char)
    (rs : List (List Char)) (t : List Char) :
    consHead c (r :: rs, t) = ((c :: r) :: rs, t) := rfl

/-- Specification-side splitter, following the spec's words: the records
are the newline-delimited substrings of the stream with the newline
stripped, in order, and the second component is the trailing fragment
after the last newline. -/
def splitNL : List Char → List (List Char) × List Char
  | [] => ([], [])
  | c :: cs =>
    if c = '\n' then ([] :: (splitNL cs).1, (splitNL cs).2)
    else consHead c (splitNL cs)

/-- Re-joins records (appending the stripped newline to each) followed
by the trailing fragment. -/
def joinNL (rs : List (List Char)) (t : List Char) : List Char :=
  rs.foldr (fun r acc => r ++ '\n' :: acc) t

theorem splitNL_of_findNL_none {b : List Char} (h : findNL b = none) :
    splitNL b = ([], b) := by
  induction b with
  | nil => rfl
  | cons c cs ih =>
    by_cases hc : c = '\n'
    · simp [findNL, hc] at h
    · simp [findNL, hc] at h
      simp [splitNL, hc, ih h]

theorem splitNL_of_findNL_some {b : List Char} {pos : Nat}
    (h : findNL b = some pos) :
    splitNL b =
      (b.take pos :: (splitNL (b.drop (pos + 1))).1,
        (splitNL (b.drop (pos + 1))).2) := by
  induction b generalizing pos with
  | nil => simp [findNL] at h
  | cons c cs ih =>
    by_cases hc : c = '\n'
    · simp [findNL, hc] at h
      subst h
      simp [splitNL, hc]
    · simp [findNL, hc] at h
      obtain ⟨q, hq, rfl⟩ := h
      have hcs := ih hq
      simp [splitNL, hc, hcs]

/-- The implementation drain agrees with the specification splitter. -/
theorem handle_input_eq_splitNL (b : List Char) :
    handle_input b = splitNL b := by
  rw [handle_input]
  split
  · rename_i pos h
    have hlt := findNL_some_lt h
    have ih := handle_input_eq_splitNL (b.drop (pos + 1))
    rw [splitNL_of_findNL_some h, ih]
  · rename_i h
    exact (splitNL_of_findNL_none h).symm
termination_by b.length
decreasing_by
  rw [List.length_drop]
  omega

theorem splitNL_length_eq_count (b : List Char) :
    (splitNL b).1.length = b.count '\n' := by
  induction b with
  | nil => rfl
  | cons c cs ih =>
    by_cases hc : c = '\n'
    · simp [splitNL, hc, List.count_cons, ih]
    · rcases hr : splitNL cs with ⟨rs, t⟩
      rw [hr] at ih
      cases rs with
      | nil => simpa [splitNL, hc, hr, List.count_cons, Ne.symm hc] using ih
      | cons r rs' => simpa [splitNL, hc, hr, List.count_cons, Ne.symm hc] using ih

theorem splitNL_trail_no_newline (b : List Char) :
    '\n' ∉ (splitNL b).2 := by
  induction b with
  | nil => simp [splitNL]
  | cons c cs ih =>
    by_cases hc : c = '\n'
    · simpa [splitNL, hc] using ih
    · rcases hr : splitNL cs with ⟨rs, t⟩
      rw [hr] at ih
      cases rs with
      | nil =>
        simp [splitNL, hc, hr]
        exact ⟨fun hne => hc hne.symm, ih⟩
      | cons r rs' => simpa [splitNL, hc, hr] using ih

theorem splitNL_no_newline {b : List Char} (h : '\n' ∉ b) :
    splitNL b = ([], b) := by
  induction b with
  | nil => rfl
  | cons c cs ih =>
    simp at h
    have hc : c ≠ '\n' := fun he => h.1 he.symm
    simp [splitNL, hc, ih h.2]

theorem splitNL_joinNL (b : List Char) :
    joinNL (splitNL b).1 (splitNL b).2 = b := by
  induction b with
  | nil => rfl
  | cons c cs ih =>
    by_cases hc : c = '\n'
    · rw [hc]
      simpa [splitNL, joinNL] using ih
    · rcases hr : splitNL cs with ⟨rs, t⟩
      rw [hr] at ih
      cases rs with
      | nil => simpa [splitNL, hc, hr, joinNL] using ih
      | cons r rs' => simpa [splitNL, hc, hr, joinNL] using ih

theorem splitNL_append (a b : List Char) :
    splitNL (a ++ b) =
      ((splitNL a).1 ++ (splitNL ((splitNL a).2 ++ b)).1,
        (splitNL ((splitNL a).2 ++ b)).2) := by
  induction a with
  | nil => simp [splitNL]
  | cons c a' ih =>
    by_cases hc : c = '\n'
    · simp [splitNL, hc, ih]
    · rcases hr : splitNL a' with ⟨rs, t⟩
      rw [hr] at ih
      cases rs with
      | nil =>
        rw [List.cons_append]
        rw [show splitNL (c :: (a' ++ b)) = consHead c (splitNL (a' ++ b))
          from by simp [splitNL, hc]]
        rw [ih]
        rcases hx : splitNL (t ++ b) with ⟨us, u⟩
        simp only [splitNL, hc, if_neg hc, hr, consHead_nil, List.nil_append,
          List.cons_append, hx]
        cases us with
        | nil => simp [splitNL, hc, hx]
        | cons v vs => simp [splitNL, hc, hx]
      | cons r rs' =>
        rw [List.cons_append]
        rw [show splitNL (c :: (a' ++ b)) = consHead c (splitNL (a' ++ b))
          from by simp [splitNL, hc]]
        rw [ih]
        simp [splitNL, hc, hr]

/-- One feed step of the session's read loop: the freshly received
characters are appended to the buffer and `handle_input` drains every
complete record, which is appended to the records seen so far. -/
def feedStep (st : List (List Char) × List Char) (f : List Char) :
    List (List Char) × List Char :=
  let r := handle_input (st.2 ++ f)
  (st.1 ++ r.1, r.2)

/-- Running a whole sequence of feeds against an initially empty buffer,
collecting every drained record. -/
def runFeeds (feeds : List (List Char)) : List (List Char) × List Char :=
  feeds.foldl feedStep ([], [])

theorem foldl_feedStep (feeds : List (List Char)) (acc : List (List Char))
    (t : List Char) (ht : '\n' ∉ t) :
    feeds.foldl feedStep (acc, t) =
      (acc ++ (splitNL (t ++ feeds.flatten)).1,
        (splitNL (t ++ feeds.flatten)).2) := by
  induction feeds generalizing acc t with
  | nil => simp [splitNL_no_newline ht]
  | cons f fs ih =>
    simp only [List.foldl_cons, feedStep, handle_input_eq_splitNL]
    rw [ih _ _ (splitNL_trail_no_newline (t ++ f))]
    have h := splitNL_append (t ++ f) fs.flatten
    simp only [List.flatten_cons]
    rw [show t ++ (f ++ fs.flatten) = t ++ f ++ fs.flatten
      from (List.append_assoc t f fs.flatten).symm]
    rw [h]
    simp

theorem runFeeds_eq_splitNL (feeds : List (List Char)) :
    runFeeds feeds = splitNL feeds.flatten := by
  have h := foldl_feedStep feeds [] [] (by simp)
  simpa [runFeeds] using h

theorem findNL_decomp {b : List Char} {pos : Nat} (h : findNL b = some pos) :
    b.take pos ++ '\n' :: b.drop (pos + 1) = b ∧ '\n' ∉ b.take pos := by
  induction b generalizing pos with
  | nil => simp [findNL] at h
  | cons c cs ih =>
    by_cases hc : c = '\n'
    · simp [findNL, hc] at h
      subst h
      simp [hc]
    · simp [findNL, hc] at h
      obtain ⟨q, hq, rfl⟩ := h
      obtain ⟨hdec, hmem⟩ := ih hq
      refine ⟨by simpa using hdec, ?_⟩
      simp [List.mem_cons, hmem]
      exact fun hne => hc hne.symm

theorem findNL_count {b : List Char} {pos : Nat} (h : findNL b = some pos) :
    b.count '\n' = (b.drop (pos + 1)).count '\n' + 1 := by
  obtain ⟨hdec, hmem⟩ := findNL_decomp h
  have hz : (b.take pos).count '\n' = 0 := List.count_eq_zero.mpr hmem
  conv_lhs => rw [← hdec]
  simp [List.count_append, List.count_cons, hz]

theorem handle_input_fuel_succ_some {fuel : Nat} {b : List Char} {pos : Nat}
    (h : findNL b = some pos) :
    handle_input_fuel (fuel + 1) b =
      (handle_input_fuel fuel (b.drop (pos + 1))).map
        (fun r => (b.take pos :: r.1, r.2)) := by
  simp [handle_input_fuel, h]

theorem handle_input_fuel_succ_none {fuel : Nat} {b : List Char}
    (h : findNL b = none) :
    handle_input_fuel (fuel + 1) b = some ([], b) := by
  simp [handle_input_fuel, h]

theorem handle_input_fuel_eq (b : List Char) :
    handle_input_fuel (b.count '\n' + 1) b = some (splitNL b) := by
  cases h : findNL b with
  | none =>
    rw [handle_input_fuel_succ_none h, splitNL_of_findNL_none h]
  | some pos =>
    have hlt := findNL_some_lt h
    have hcount := findNL_count h
    have ih := handle_input_fuel_eq (b.drop (pos + 1))
    rw [splitNL_of_findNL_some h, hcount, handle_input_fuel_succ_some h, ih]
    rfl
termination_by b.length
decreasing_by
  rw [List.length_drop]
  omega

/-- C10: handle_input terminates on every finite buffer: a fuel of one
pass per newline plus one final pass suffices to reproduce the total
function, and the buffer left behind is exactly the suffix after the
last newline (it is newline-free, and re-joining the drained records
with their newlines and the leftover reproduces the original buffer). -/
theorem handle_input_terminates (b : List Char) :
    handle_input_fuel (b.count '\n' + 1) b = some (handle_input b) ∧
    '\n' ∉ (handle_input b).2 ∧
    joinNL (handle_input b).1 (handle_input b).2 = b := by
  rw [handle_input_eq_splitNL]
  exact ⟨handle_input_fuel_eq b, splitNL_trail_no_newline b, splitNL_joinNL b⟩

/-- C2: feeding a finite sequence of reads through the buffer and
draining after each feed yields exactly the newline-terminated records
of the concatenated stream, in order and with the newline stripped:
one record per newline, a trailing unterminated fragment is never
emitted but kept buffered (re-joining records and leftover restores
the stream, and the leftover is newline-free). -/
theorem line_buffer_drain (feeds : List (List Char)) :
    (runFeeds feeds).1 = (splitNL feeds.flatten).1 ∧
    (runFeeds feeds).1.length = feeds.flatten.count '\n' ∧
    '\n' ∉ (runFeeds feeds).2 ∧
    joinNL (runFeeds feeds).1 (runFeeds feeds).2 = feeds.flatten := by
  have h := runFeeds_eq_splitNL feeds
  refine ⟨by rw [h], ?_, ?_, ?_⟩
  · rw [h]
    exact splitNL_length_eq_count _
  · rw [h]
    exact splitNL_trail_no_newline _
  · rw [h]
    exact splitNL_joinNL _

/-! ## Protocol-session layer -/

/-- Body of a match record as produced by the backend. -/
structure MatchBody where
  path : String
  lno : Nat
  bounds : Nat × Nat
  line : String
deriving DecidableEq, Repr

/-- The per-line triple stored for a path by collateMatches. -/
structure LineEntry where
  lno : Nat
  bounds : Nat × Nat
  line : String
deriving DecidableEq, Repr

/-- The lno/bounds/line projection of a match that collateMatches
appends to the per-path list. -/
def MatchBody.entry (m : MatchBody) : LineEntry :=
  ⟨m.lno, m.bounds, m.line⟩

/-- One element of the value collateMatches returns. -/
structure GroupedResult where
  path : String
  icon : String
  lines : List LineEntry
deriving DecidableEq, Repr

/-- The query payload the client serializes and sends. -/
structure QueryBody where
  fold_case : Bool
  line : String
  file : String
  repo : String
deriving DecidableEq, Repr

/-- Exception classes the source can raise: socket.error, the KeyError
of an os.environ lookup, the ValueError of a failed json.loads, and the
BaseException raised for an unknown opcode (the spec's ProtocolError). -/
inductive PyErr where
  | socketErr
  | keyError
  | valueError
  | protoErr (opcode : String)
deriving DecidableEq, Repr

/-- Decoded form of one protocol line, as consumed by handle_line:
json.loads is modelled by presenting the line already decoded, with
malformed standing for a line json.loads rejects. -/
inductive LineMsg where
  | omatch (body : MatchBody)
  | oready
  | odone (why : Option String)
  | oerror
  | ounknown (opcode : String)
  | malformed
deriving DecidableEq, Repr

/-- Session state of the CodeSearch class: the state string, the
pending match accumulator and the last issued query.  The byte buffer
is handled at the line-buffer layer and is newline-free whenever
control leaves handle_input, so it does not appear here. -/
structure CodeSearch where
  state : String
  «matches» : List MatchBody
  query : Option QueryBody
deriving DecidableEq, Repr

/-- Embeds CodeSearch.handle_line: dispatch one decoded line.
A match appends its body to the accumulator, ready moves the state to
the ready value, done only prints a timeout notice (no state change),
error clears the accumulator, and an unknown opcode raises after
printing.  A line that json.loads rejects raises ValueError before the
dispatch. -/
def CodeSearch.handle_line (s : CodeSearch) (j : LineMsg) : Except PyErr CodeSearch :=
  match j with
  | .malformed => .error .valueError
  | .omatch body => .ok { s with «matches» := s.«matches» ++ [body] }
  | .oready => .ok { s with state := "ready" }
  | .odone _ => .ok s
  | .oerror => .ok { s with «matches» := [] }
  | .ounknown opcode => .error (.protoErr opcode)

/-- Dispatches, in order, every record drained by one handle_input
call; the first raised exception aborts the rest, as in the source. -/
def CodeSearch.handle_msgs (s : CodeSearch) : List LineMsg → Except PyErr CodeSearch
  | [] => .ok s
  | j :: js =>
    match s.handle_line j with
    | .error e => .error e
    | .ok s' => s'.handle_msgs js

/-- One sock.recv call, modelled by its observable effect: either the
list of records it completes in the buffer (a zero-length read, i.e. a
peer shutdown, completes none and is .data with an empty list), or a
raised socket.error. -/
inductive Recv where
  | data (msgs : List LineMsg)
  | sockErr
deriving DecidableEq, Repr

/-- Outcome of the wait_ready loop when no exception is raised:
completed with the remaining unread input, or still waiting with the
supplied reads exhausted (the source would block in recv forever). -/
inductive WaitOut where
  | completed (s : CodeSearch) (rest : List Recv)
  | starving (s : CodeSearch)
deriving DecidableEq, Repr

/-- Embeds CodeSearch.wait_ready: while the state differs from the
ready value, read once and dispatch every record that read completes
(including records positioned after a ready in the same read, exactly
as handle_input drains the whole buffer before the loop condition is
re-checked). -/
def CodeSearch.wait_ready (s : CodeSearch) (chunks : List Recv) : Except PyErr WaitOut :=
  if s.state = "ready" then .ok (.completed s chunks)
  else
    match chunks with
    | [] => .ok (.starving s)
    | .sockErr :: _ => .error .socketErr
    | .data msgs :: rest =>
      match s.handle_msgs msgs with
      | .error e => .error e
      | .ok s' => s'.wait_ready rest

/-- The records completed by one read, empty for a raised read. -/
def recvMsgs : Recv → List LineMsg
  | .data msgs => msgs
  | .sockErr => []

/-- Specification of how a run of dispatched records transforms the
match accumulator: a match appends its body, an error resets the
accumulator, everything else leaves it alone. -/
def deliveredMatches : List LineMsg → List MatchBody → List MatchBody
  | [], acc => acc
  | .omatch body :: js, acc => deliveredMatches js (acc ++ [body])
  | .oready :: js, acc => deliveredMatches js acc
  | .odone _ :: js, acc => deliveredMatches js acc
  | .oerror :: js, _ => deliveredMatches js []
  | .ounknown _ :: js, acc => deliveredMatches js acc
  | .malformed :: js, acc => deliveredMatches js acc

/-- Dispatches a whole run of reads, one handle_input pass per read,
with no ready check in between; wait_ready consumes exactly such a run
before it completes. -/
def CodeSearch.handleRecvs (s : CodeSearch) : List Recv → Except PyErr CodeSearch
  | [] => .ok s
  | .sockErr :: _ => .error .socketErr
  | .data msgs :: rest =>
    match s.handle_msgs msgs with
    | .error e => .error e
    | .ok s' => s'.handleRecvs rest

/-- Embeds the paths dict of collateMatches together with
paths.setdefault(key, []).append(entry): the dict is modelled as an
association list in key-insertion order.  The table contents (one
entry per distinct key, per-key values in append order) are faithful;
the insertion-ordered ITERATION implied by this list is a modelling
choice, because CPython 2, which this source runs on, iterates a dict
in hash-slot order — collateMatchesPy below evaluates that real order
(the concrete inputs used by the other claims' theorems have hash
slots coinciding with insertion order: f0 and a in slot 0, f1 in
slot 1, b in slot 3, and single-path inputs are order-independent). -/
def setdefaultAppend : List (String × List LineEntry) → String → LineEntry →
    List (String × List LineEntry)
  | [], p, e => [(p, [e])]
  | (q, ls) :: rest, p, e =>
    if q = p then (q, ls ++ [e]) :: rest
    else (q, ls) :: setdefaultAppend rest p e

/-- Embeds CodeSearch.collateMatches: group the flat match list by
path and wrap each group with its path and an empty icon.  The group
order here is insertion order; see collateMatchesPy for the hash-slot
order the CPython 2 runtime actually iterates in. -/
def CodeSearch.collateMatches («matches» : List MatchBody) : List GroupedResult :=
  let paths := «matches».foldl (fun acc m => setdefaultAppend acc m.path m.entry) []
  paths.map (fun pr => { path := pr.1, icon := "", lines := pr.2 })

/-- Distinct values of a list, first occurrence kept, computed
structurally (the key set of the paths dict). -/
def distinctKeysAux (seen : List String) : List String → List String
  | [] => []
  | p :: ps =>
    if p ∈ seen then distinctKeysAux seen ps
    else p :: distinctKeysAux (p :: seen) ps

/-- Distinct values of a list in first-occurrence order. -/
def distinctKeys (l : List String) : List String :=
  distinctKeysAux [] l

/-- Hash of a byte string under CPython 2.7 with a 64-bit C long and
hash randomization off (the default): x starts as the first byte
shifted left by 7, every byte folds in as x = (1000003 * x) xor byte,
then x is xored with the length, with the reserved value -1 (here
2 to the 64th minus 1) mapped to -2.  This hash fixes the slot, hash
mod 8, of each key of a small dict and hence the iteration order of
the paths dict in collateMatches. -/
def pyHashStr (s : List Char) : Nat :=
  match s with
  | [] => 0
  | c :: _ =>
    let x0 := (c.toNat <<< 7) % (2 ^ 64)
    let x1 := s.foldl (fun x ch => ((1000003 * x) ^^^ ch.toNat) % (2 ^ 64)) x0
    let x2 := x1 ^^^ s.length
    if x2 = 2 ^ 64 - 1 then 2 ^ 64 - 2 else x2

/-- Iteration order of a CPython 2.7 dict over the given distinct
keys, in the regime this file's concrete inputs exercise: at most five
keys (so the initial eight-slot table is never resized) whose slots
hash mod 8 are pairwise distinct (so open-addressing collision probing
never fires).  Iteration scans slots 0 through 7 in order.  Outside
that regime the model answers none rather than guessing. -/
def dictSlotOrder (keys : List String) : Option (List String) :=
  if keys.length ≤ 5 ∧ (keys.map (fun k => pyHashStr k.data % 8)).Nodup then
    some (((List.range 8).map
      (fun i => keys.filter (fun k => pyHashStr k.data % 8 = i))).flatten)
  else none

/-- Evaluates CodeSearch.collateMatches under the iteration order of
the CPython 2.7 runtime (per dictSlotOrder, none outside the modelled
no-collision regime): the groups hold the same per-path data as the
insertion-ordered table, listed in hash-slot order as the source's
final comprehension 'for p in paths' visits them. -/
def collateMatchesPy («matches» : List MatchBody) : Option (List GroupedResult) :=
  (dictSlotOrder (distinctKeys («matches».map MatchBody.path))).map
    (fun ord => ord.map (fun p =>
      { path := p, icon := "",
        lines := («matches».filter (fun m => m.path = p)).map MatchBody.entry }))

/-- First occurrence of each value, in the order of first occurrence;
this is the key order the spec asserts for the grouped output. -/
def firstSeen : List String → List String
  | [] => []
  | p :: ps =>
    have hlt : (ps.filter (fun q => q ≠ p)).length < (p :: ps).length := by
      have := List.length_filter_le (fun q => decide (q ≠ p)) ps
      rw [List.length_cons]
      omega
    p :: firstSeen (ps.filter (fun q => q ≠ p))
termination_by l => l.length
decreasing_by
  exact hlt

theorem firstSeen_subset {p : String} {l : List String}
    (h : p ∈ firstSeen l) : p ∈ l := by
  match l with
  | [] => simp [firstSeen] at h
  | q :: qs =>
    rw [firstSeen] at h
    rcases List.mem_cons.mp h with hq | hm
    · simp [hq]
    · have hlt : (qs.filter (fun r => r ≠ q)).length < (q :: qs).length := by
        have := List.length_filter_le (fun r => decide (r ≠ q)) qs
        rw [List.length_cons]
        omega
      have := firstSeen_subset hm
      have := List.mem_of_mem_filter this
      simp [this]
termination_by l.length
decreasing_by
  exact hlt

/-- The step function folded by collateMatches. -/
def collateStep (acc : List (String × List LineEntry)) (m : MatchBody) :
    List (String × List LineEntry) :=
  setdefaultAppend acc m.path m.entry

theorem foldl_collateStep_cons (ms : List MatchBody) (p : String)
    (ls : List LineEntry) (acc : List (String × List LineEntry)) :
    List.foldl collateStep ((p, ls) :: acc) ms =
      (p, ls ++ (ms.filter (fun m => m.path = p)).map MatchBody.entry) ::
        List.foldl collateStep acc (ms.filter (fun m => m.path ≠ p)) := by
  induction ms generalizing ls acc with
  | nil => simp
  | cons m ms ih =>
    by_cases hp : m.path = p
    · have hstep : collateStep ((p, ls) :: acc) m = (p, ls ++ [m.entry]) :: acc := by
        simp [collateStep, setdefaultAppend, hp.symm]
      rw [List.foldl_cons, hstep, ih]
      simp [List.filter_cons, hp]
    · have hne : p ≠ m.path := fun he => hp he.symm
      have hstep : collateStep ((p, ls) :: acc) m =
          (p, ls) :: setdefaultAppend acc m.path m.entry := by
        simp [collateStep, setdefaultAppend, hne]
      rw [List.foldl_cons, hstep, ih]
      simp [List.filter_cons, hp]
      rfl

theorem filter_path_map (rs : List MatchBody) (q : String) :
    (rs.filter (fun x => x.path ≠ q)).map MatchBody.path =
      (rs.map MatchBody.path).filter (fun x => x ≠ q) := by
  induction rs with
  | nil => rfl
  | cons r rest ih =>
    by_cases hr : r.path = q
    · have h1 : (r :: rest).filter (fun x => x.path ≠ q) =
          rest.filter (fun x => x.path ≠ q) := by
        simp [List.filter_cons, hr]
      have h2 : ((r :: rest).map MatchBody.path).filter (fun x => x ≠ q) =
          (rest.map MatchBody.path).filter (fun x => x ≠ q) := by
        simp [List.filter_cons, hr]
      rw [h1, h2, ih]
    · have h1 : (r :: rest).filter (fun x => x.path ≠ q) =
          r :: rest.filter (fun x => x.path ≠ q) := by
        simp [List.filter_cons, hr]
      have h2 : ((r :: rest).map MatchBody.path).filter (fun x => x ≠ q) =
          r.path :: (rest.map MatchBody.path).filter (fun x => x ≠ q) := by
        simp [List.filter_cons, hr]
      rw [h1, h2, List.map_cons, ih]

theorem filter_filter_path (rs : List MatchBody) (p q : String) (hpq : p ≠ q) :
    (rs.filter (fun x => x.path ≠ q)).filter (fun x => x.path = p) =
      rs.filter (fun x => x.path = p) := by
  induction rs with
  | nil => rfl
  | cons r rest ih =>
    by_cases hq : r.path = q
    · have hp : ¬ r.path = p := fun he => hpq (by rw [← he]; exact hq)
      have h1 : (r :: rest).filter (fun x => x.path ≠ q) =
          rest.filter (fun x => x.path ≠ q) := by
        simp [List.filter_cons, hq]
      have h2 : (r :: rest).filter (fun x => x.path = p) =
          rest.filter (fun x => x.path = p) := by
        simp [List.filter_cons, hp]
      rw [h1, h2, ih]
    · have h1 : (r :: rest).filter (fun x => x.path ≠ q) =
          r :: rest.filter (fun x => x.path ≠ q) := by
        simp [List.filter_cons, hq]
      rw [h1]
      by_cases hp : r.path = p
      · have h2 : ∀ l : List MatchBody, (r :: l).filter (fun x => x.path = p) =
            r :: l.filter (fun x => x.path = p) := by
          intro l
          simp [List.filter_cons, hp]
        rw [h2, h2, ih]
      · have h2 : ∀ l : List MatchBody, (r :: l).filter (fun x => x.path = p) =
            l.filter (fun x => x.path = p) := by
          intro l
          simp [List.filter_cons, hp]
        rw [h2, h2, ih]

theorem collateMatches_closed (ms : List MatchBody) :
    CodeSearch.collateMatches ms =
      (firstSeen (ms.map MatchBody.path)).map
        (fun p =>
          { path := p, icon := "",
            lines := (ms.filter (fun m => m.path = p)).map MatchBody.entry }) := by
  match ms with
  | [] => simp [CodeSearch.collateMatches, firstSeen]
  | m :: rest =>
    have hlt : (rest.filter (fun x => x.path ≠ m.path)).length < (m :: rest).length := by
      have := List.length_filter_le (fun x => decide (x.path ≠ m.path)) rest
      rw [List.length_cons]
      omega
    have ih := collateMatches_closed (rest.filter (fun x => x.path ≠ m.path))
    have hfold : List.foldl collateStep [] (m :: rest) =
        (m.path, [m.entry] ++ (rest.filter (fun x => x.path = m.path)).map MatchBody.entry) ::
          List.foldl collateStep [] (rest.filter (fun x => x.path ≠ m.path)) := by
      rw [List.foldl_cons]
      have hstep : collateStep [] m = [(m.path, [m.entry])] := rfl
      rw [hstep]
      exact foldl_collateStep_cons rest m.path [m.entry] []
    have hcoll : CodeSearch.collateMatches (m :: rest) =
        { path := m.path, icon := "",
          lines := [m.entry] ++ (rest.filter (fun x => x.path = m.path)).map MatchBody.entry } ::
          CodeSearch.collateMatches (rest.filter (fun x => x.path ≠ m.path)) := by
      unfold CodeSearch.collateMatches
      rw [show (fun (acc : List (String × List LineEntry)) (x : MatchBody) =>
        setdefaultAppend acc x.path x.entry) = collateStep from rfl]
      rw [hfold]
      simp
    rw [hcoll, ih]
    have hpaths : (rest.filter (fun x => x.path ≠ m.path)).map MatchBody.path =
        (rest.map MatchBody.path).filter (fun q => q ≠ m.path) :=
      filter_path_map rest m.path
    have hfs : firstSeen ((m :: rest).map MatchBody.path) =
        m.path :: firstSeen ((rest.filter (fun x => x.path ≠ m.path)).map MatchBody.path) := by
      rw [List.map_cons, firstSeen, hpaths]
    rw [hfs, List.map_cons]
    refine congrArg₂ _ ?_ ?_
    · have : (m :: rest).filter (fun x => x.path = m.path) =
          m :: rest.filter (fun x => x.path = m.path) := by
        simp [List.filter_cons]
      rw [this]
      simp
    · apply List.map_congr_left
      intro p hp
      have hpm : p ≠ m.path := by
        have hmem := firstSeen_subset hp
        rw [hpaths] at hmem
        have := List.of_mem_filter hmem
        simpa using this
      have hdouble : (rest.filter (fun x => x.path ≠ m.path)).filter (fun x => x.path = p) =
          rest.filter (fun x => x.path = p) :=
        filter_filter_path rest p m.path hpm
      have hhead : (m :: rest).filter (fun x => x.path = p) =
          rest.filter (fun x => x.path = p) := by
        have : ¬ m.path = p := fun he => hpm he.symm
        simp [List.filter_cons, this]
      rw [hdouble, hhead]
termination_by ms.length
decreasing_by
  exact hlt

/-- Outcome of CodeSearch.search: the collated results together with
the session after the call and the unread input, or starving when the
supplied reads ran out before a ready arrived. -/
inductive SearchOut where
  | finished (results : List GroupedResult) (s : CodeSearch) (rest : List Recv)
  | starving
deriving DecidableEq, Repr

/-- Embeds CodeSearch.search: record the query, move to the search
state, send the serialized query (the write itself has no effect on the
session), wait for ready, collate the accumulated matches, clear the
accumulator and return the collated results. -/
def CodeSearch.search (s : CodeSearch) (pattern : String) (fold_case : Bool)
    (file : String) (repo : String) (chunks : List Recv) : Except PyErr SearchOut :=
  let q : QueryBody := ⟨fold_case, pattern, file, repo⟩
  let s₁ : CodeSearch := { s with query := some q, state := "search" }
  match s₁.wait_ready chunks with
  | .error e => .error e
  | .ok (.starving _) => .ok .starving
  | .ok (.completed s₂ rest) =>
    .ok (.finished (CodeSearch.collateMatches s₂.«matches»)
      { s₂ with «matches» := [] } rest)

/-- The freshly constructed session before the banner synchronization:
state init, empty buffer, empty accumulator, no query yet. -/
def initSess : CodeSearch :=
  { state := "init", «matches» := [], query := none }

/-- One connection attempt by the CodeSearch constructor: either
socket.connect raises socket.error, or the connection is accepted and
the given reads make up the banner traffic the constructor's
wait_ready consumes. -/
inductive ConnectAttempt where
  | refuse
  | accept (banner : List Recv)
deriving DecidableEq, Repr

/-- Outcome of a constructor call that raised nothing: an opened
session plus the reads left over after the banner synchronization, or
starving when the constructor would block in recv forever. -/
inductive OpenOut where
  | opened (s : CodeSearch) (rest : List Recv)
  | starving
deriving DecidableEq, Repr

/-- Embeds CodeSearch.__init__: connect, set up the session fields
and run wait_ready against the banner traffic.  An exception raised by
connect or by wait_ready propagates out of the constructor. -/
def tryOpen : ConnectAttempt → Except PyErr OpenOut
  | .refuse => .error .socketErr
  | .accept banner =>
    match initSess.wait_ready banner with
    | .error e => .error e
    | .ok (.starving _) => .ok .starving
    | .ok (.completed s rest) => .ok (.opened s rest)

/-- Observable effect of startup_codesearch when it returns: whether
it spawned the backend (daemonize ran) and slept for the warm-up
delay. -/
structure SupEffect where
  spawned : Bool
  slept : Bool
deriving DecidableEq, Repr

/-- Embeds startup_codesearch.  The environment is modelled by the
value of the CODESEARCH variable, none when the variable is absent:
os.environ of a missing key raises KeyError; a present but empty value
is falsy, so the guard returns before daemonize; otherwise daemonize
spawns the backend and the caller sleeps five seconds. -/
def startup_codesearch (env : Option String) : Except PyErr SupEffect :=
  match env with
  | none => .error .keyError
  | some path =>
    if path = "" then .ok ⟨false, false⟩
    else .ok ⟨true, true⟩

/-- Result of the module-level search facade: a returned value, a
propagated exception, or a call that never returns because a recv
blocks forever. -/
inductive FacadeRes where
  | ret (results : List GroupedResult)
  | raised (e : PyErr)
  | blocked
deriving DecidableEq, Repr

/-- The try/finally body of the facade: delegate to
CodeSearch.search, then close the session on the way out whether the
call returned or raised.  The second component counts how many times
close ran. -/
def facadeBody (s : CodeSearch) (pattern : String) (fold_case : Bool)
    (file : String) (repo : String) (chunks : List Recv) : FacadeRes × Nat :=
  match s.search pattern fold_case file repo chunks with
  | .error e => (.raised e, 1)
  | .ok (.finished results _ _) => (.ret results, 1)
  | .ok .starving => (.blocked, 0)

/-- Embeds the module-level search function: try to construct a
session; on socket.error run startup_codesearch and retry the
construction once, returning an empty list if the retry also raises
socket.error; any other exception is not caught.  With a session in
hand, delegate to CodeSearch.search and close the session on every
exit path via try/finally.  Reads for the query phase follow whatever
banner traffic the constructor left unread. -/
def search (env : Option String) (a1 a2 : ConnectAttempt) (pattern : String)
    (fold_case : Bool) (file : String) (repo : String)
    (qchunks : List Recv) : FacadeRes × Nat :=
  match tryOpen a1 with
  | .ok (.opened s rest) => facadeBody s pattern fold_case file repo (rest ++ qchunks)
  | .ok .starving => (.blocked, 0)
  | .error .socketErr =>
    match startup_codesearch env with
    | .error e => (.raised e, 0)
    | .ok _ =>
      match tryOpen a2 with
      | .ok (.opened s rest) => facadeBody s pattern fold_case file repo (rest ++ qchunks)
      | .ok .starving => (.blocked, 0)
      | .error .socketErr => (.ret [], 0)
      | .error e => (.raised e, 0)
  | .error e => (.raised e, 0)

theorem handle_msgs_append (xs ys : List LineMsg) (s : CodeSearch) :
    s.handle_msgs (xs ++ ys) =
      match s.handle_msgs xs with
      | .error e => .error e
      | .ok s' => s'.handle_msgs ys := by
  induction xs generalizing s with
  | nil => simp [CodeSearch.handle_msgs]
  | cons x xs ih =>
    rw [List.cons_append]
    rw [CodeSearch.handle_msgs, CodeSearch.handle_msgs]
    cases s.handle_line x with
    | error e => rfl
    | ok s' => exact ih s'

theorem deliveredMatches_append (xs ys : List LineMsg) (acc : List MatchBody) :
    deliveredMatches (xs ++ ys) acc = deliveredMatches ys (deliveredMatches xs acc) := by
  induction xs generalizing acc with
  | nil => rfl
  | cons x xs ih =>
    cases x with
    | omatch body => rw [List.cons_append, deliveredMatches, deliveredMatches, ih]
    | oready => rw [List.cons_append, deliveredMatches, deliveredMatches, ih]
    | odone why => rw [List.cons_append, deliveredMatches, deliveredMatches, ih]
    | oerror => rw [List.cons_append, deliveredMatches, deliveredMatches, ih]
    | ounknown opcode => rw [List.cons_append, deliveredMatches, deliveredMatches, ih]
    | malformed => rw [List.cons_append, deliveredMatches, deliveredMatches, ih]

theorem handle_msgs_matches {msgs : List LineMsg} {s s' : CodeSearch}
    (h : s.handle_msgs msgs = .ok s') :
    s'.«matches» = deliveredMatches msgs s.«matches» := by
  induction msgs generalizing s with
  | nil =>
    rw [CodeSearch.handle_msgs] at h
    cases h
    rfl
  | cons j js ih =>
    rw [CodeSearch.handle_msgs] at h
    cases j with
    | omatch body =>
      simp only [CodeSearch.handle_line] at h
      rw [deliveredMatches]
      have hx := ih h
      exact hx
    | oready =>
      simp only [CodeSearch.handle_line] at h
      rw [deliveredMatches]
      have hx := ih h
      exact hx
    | odone why =>
      simp only [CodeSearch.handle_line] at h
      rw [deliveredMatches]
      have hx := ih h
      exact hx
    | oerror =>
      simp only [CodeSearch.handle_line] at h
      rw [deliveredMatches]
      have hx := ih h
      exact hx
    | ounknown opcode => simp [CodeSearch.handle_line] at h
    | malformed => simp [CodeSearch.handle_line] at h

theorem handleRecvs_matches {used : List Recv} {s s' : CodeSearch}
    (h : s.handleRecvs used = .ok s') :
    s'.«matches» = deliveredMatches (used.map recvMsgs).flatten s.«matches» := by
  induction used generalizing s with
  | nil =>
    rw [CodeSearch.handleRecvs] at h
    cases h
    rfl
  | cons c rest ih =>
    cases c with
    | sockErr => exact absurd h (by simp [CodeSearch.handleRecvs])
    | data msgs =>
      rw [CodeSearch.handleRecvs] at h
      cases hm : s.handle_msgs msgs with
      | error e =>
        rw [hm] at h
        cases h
      | ok s₁ =>
        rw [hm] at h
        have h1 := handle_msgs_matches hm
        have h2 := ih h
        rw [List.map_cons, List.flatten_cons, deliveredMatches_append]
        rw [show recvMsgs (Recv.data msgs) = msgs from rfl, ← h1]
        exact h2

theorem wait_ready_ready {s : CodeSearch} (hs : s.state = "ready")
    (chunks : List Recv) :
    s.wait_ready chunks = .ok (.completed s chunks) := by
  rw [CodeSearch.wait_ready.eq_def]
  simp [hs]

theorem wait_ready_nil {s : CodeSearch} (hs : ¬ s.state = "ready") :
    s.wait_ready [] = .ok (.starving s) := by
  rw [CodeSearch.wait_ready.eq_def]
  simp [hs]

theorem wait_ready_sockErr {s : CodeSearch} (hs : ¬ s.state = "ready")
    (cs : List Recv) :
    s.wait_ready (.sockErr :: cs) = .error .socketErr := by
  rw [CodeSearch.wait_ready.eq_def]
  simp [hs]

theorem wait_ready_data_ok {s s₁ : CodeSearch} {msgs : List LineMsg}
    (hs : ¬ s.state = "ready") (hm : s.handle_msgs msgs = .ok s₁)
    (cs : List Recv) :
    s.wait_ready (.data msgs :: cs) = s₁.wait_ready cs := by
  rw [CodeSearch.wait_ready.eq_def]
  simp [hs, hm]

theorem wait_ready_data_err {s : CodeSearch} {msgs : List LineMsg} {e : PyErr}
    (hs : ¬ s.state = "ready") (hm : s.handle_msgs msgs = .error e)
    (cs : List Recv) :
    s.wait_ready (.data msgs :: cs) = .error e := by
  rw [CodeSearch.wait_ready.eq_def]
  simp [hs, hm]

theorem wait_ready_consumed {chunks rest : List Recv} {s s' : CodeSearch}
    (h : s.wait_ready chunks = .ok (.completed s' rest)) :
    ∃ used, chunks = used ++ rest ∧ s.handleRecvs used = .ok s' ∧ s'.state = "ready" := by
  induction chunks generalizing s with
  | nil =>
    by_cases hs : s.state = "ready"
    · rw [wait_ready_ready hs] at h
      cases h
      exact ⟨[], rfl, rfl, hs⟩
    · rw [wait_ready_nil hs] at h
      cases h
  | cons c cs ih =>
    by_cases hs : s.state = "ready"
    · rw [wait_ready_ready hs] at h
      cases h
      exact ⟨[], rfl, rfl, hs⟩
    · cases c with
      | sockErr =>
        rw [wait_ready_sockErr hs] at h
        cases h
      | data msgs =>
        cases hm : s.handle_msgs msgs with
        | error e =>
          rw [wait_ready_data_err hs hm] at h
          cases h
        | ok s₁ =>
          rw [wait_ready_data_ok hs hm] at h
          obtain ⟨used, hused, hrun, hst⟩ := ih h
          refine ⟨.data msgs :: used, by rw [hused, List.cons_append], ?_, hst⟩
          rw [CodeSearch.handleRecvs, hm]
          exact hrun

theorem startup_present_ok (v : String) :
    ∃ eff, startup_codesearch (some v) = .ok eff := by
  by_cases hv : v = ""
  · exact ⟨⟨false, false⟩, by simp [startup_codesearch, hv]⟩
  · exact ⟨⟨true, true⟩, by simp [startup_codesearch, hv]⟩

/-! ## Claim theorems -/

/-- C1 counterexample: the claim that matches received before one
query's completing ready (in particular during the initial open/banner
synchronization) never appear in a later query's results is false: a
match record delivered during the banner phase stays in the
accumulator after the constructor's wait reaches Ready, and the next
search collates it into its results next to that query's own match. -/
theorem banner_match_leaks_into_results :
    tryOpen (.accept [.data [.omatch ⟨"f0", 1, (0, 2), "l0"⟩, .oready]]) =
      .ok (.opened ⟨"ready", [⟨"f0", 1, (0, 2), "l0"⟩], none⟩ []) ∧
    CodeSearch.search ⟨"ready", [⟨"f0", 1, (0, 2), "l0"⟩], none⟩ "p" true ".*" ".*"
        [.data [.omatch ⟨"f1", 2, (1, 3), "l1"⟩, .oready]] =
      .ok (.finished
        [⟨"f0", "", [⟨1, (0, 2), "l0"⟩]⟩, ⟨"f1", "", [⟨2, (1, 3), "l1"⟩]⟩]
        ⟨"ready", [], some ⟨true, "p", ".*", ".*"⟩⟩ []) :=
  ⟨rfl, rfl⟩

/-- C1 (amended): the accumulator is cleared unconditionally when an
error opcode is dispatched and is reset to empty when search hands the
collated results back, but reaching Ready does not clear it; hence a
completed search returns the collation of every match dispatched on
the reads it consumed (error clearing included) applied to whatever
the accumulator already held when the query was sent, so matches
received outside a query window flow into the next query's results,
while matches of a completed query never survive into a later one. -/
theorem match_accumulator_lifecycle :
    (∀ s : CodeSearch, s.handle_line .oerror = .ok { s with «matches» := [] }) ∧
    (∀ s : CodeSearch, s.handle_line .oready = .ok { s with state := "ready" }) ∧
    (∀ (s : CodeSearch) (pattern : String) (fold_case : Bool) (file repo : String)
        (chunks : List Recv) (res : List GroupedResult) (s' : CodeSearch)
        (rest : List Recv),
      s.search pattern fold_case file repo chunks = .ok (.finished res s' rest) →
        s'.«matches» = [] ∧
        ∃ used, chunks = used ++ rest ∧
          res = CodeSearch.collateMatches
            (deliveredMatches (used.map recvMsgs).flatten s.«matches»)) := by
  refine ⟨fun s => rfl, fun s => rfl, ?_⟩
  intro s pattern fold_case file repo chunks res s' rest h
  simp only [CodeSearch.search] at h
  split at h
  · cases h
  · cases h
  · rename_i s₂ rest₂ heq
    cases h
    refine ⟨rfl, ?_⟩
    obtain ⟨used, hused, hrun, hst⟩ := wait_ready_consumed heq
    refine ⟨used, hused, ?_⟩
    rw [handleRecvs_matches hrun]

/-- C1 witness: a clean session issuing one query whose responses are
one match and then ready gets exactly that match back and ends with an
empty accumulator. -/
theorem match_accumulator_lifecycle_witness :
    (⟨"ready", [], some ⟨true, "p", ".*", ".*"⟩⟩ : CodeSearch).«matches» = [] ∧
    ∃ used,
      [Recv.data [.omatch ⟨"f1", 2, (1, 3), "l1"⟩, .oready]] =
        used ++ ([] : List Recv) ∧
      CodeSearch.collateMatches [⟨"f1", 2, (1, 3), "l1"⟩] =
        CodeSearch.collateMatches
          (deliveredMatches (used.map recvMsgs).flatten
            (⟨"ready", [], none⟩ : CodeSearch).«matches») :=
  match_accumulator_lifecycle.2.2 ⟨"ready", [], none⟩ "p" true ".*" ".*"
    [Recv.data [.omatch ⟨"f1", 2, (1, 3), "l1"⟩, .oready]]
    (CodeSearch.collateMatches [⟨"f1", 2, (1, 3), "l1"⟩])
    ⟨"ready", [], some ⟨true, "p", ".*", ".*"⟩⟩ [] rfl

/-- C3: dispatching an error opcode clears the pending accumulator and
leaves the state field untouched; a search whose responses are error,
then one match, then ready returns exactly the post-error match no
matter what the accumulator held before, and a search whose responses
stop after the error never completes (ready is still required). -/
theorem error_then_match_then_ready (s : CodeSearch) (m : MatchBody)
    (pattern : String) (fold_case : Bool) (file repo : String) :
    s.handle_line .oerror = .ok { s with «matches» := [] } ∧
    s.search pattern fold_case file repo [.data [.oerror, .omatch m, .oready]] =
      .ok (.finished (CodeSearch.collateMatches [m])
        ⟨"ready", [], some ⟨fold_case, pattern, file, repo⟩⟩ []) ∧
    s.search pattern fold_case file repo [.data [.oerror]] = .ok .starving :=
  ⟨rfl, rfl, rfl⟩

/-- C4: evaluating collateMatches under the iteration order of the
CPython 2.7 runtime at the failing input refutes the claimed
first-seen path order: the keys a and b land in hash slots 0 and 3,
so matches whose paths are first seen in order b, a come back grouped
in order a, b — while the order-independent parts of the claim (one
group per distinct path, within-path entries in original order, empty
icon) are visible in the computed output. -/
theorem collateMatches_order_diverges :
    pyHashStr "a".data % 8 = 0 ∧
    pyHashStr "b".data % 8 = 3 ∧
    collateMatchesPy [⟨"b", 1, (0, 2), "lb"⟩, ⟨"a", 2, (1, 3), "la"⟩] =
      some [⟨"a", "", [⟨2, (1, 3), "la"⟩]⟩, ⟨"b", "", [⟨1, (0, 2), "lb"⟩]⟩] ∧
    (["a", "b"] : List String) ≠ ["b", "a"] := by
  refine ⟨by decide, by decide, ?_, by decide⟩
  decide

/-- C5: on zero-length reads (the peer has shut down) wait_ready
raises nothing and keeps looping: any number of empty reads leaves the
session exactly as it was, still waiting, with no ConnectionError ever
raised — the code contradicts the claimed failure on zero-length
reads. -/
theorem zero_length_reads_loop (n : Nat) (s : CodeSearch)
    (h : s.state ≠ "ready") :
    s.wait_ready (List.replicate n (.data [])) = .ok (.starving s) := by
  induction n with
  | zero => exact wait_ready_nil h
  | succ k ih =>
    rw [List.replicate_succ,
      wait_ready_data_ok h (show s.handle_msgs [] = .ok s from rfl)]
    exact ih

/-- C5 witness: three consecutive zero-length reads on a fresh session
leave it in the init state with nothing raised. -/
theorem zero_length_reads_loop_witness :
    initSess.state ≠ "ready" ∧
    initSess.wait_ready (List.replicate 3 (.data [])) = .ok (.starving initSess) :=
  ⟨by decide, zero_length_reads_loop 3 initSess (by decide)⟩

/-- C8: a record whose opcode is none of match, ready, done, error
makes handle_line raise the protocol violation, and a read containing
such a record aborts the whole wait loop with that error no matter
what records precede or follow it or how much input is still queued:
the record is neither ignored nor retried. -/
theorem unknown_opcode_is_fatal (opcode : String) (s s' : CodeSearch)
    (pre post : List LineMsg) (chunks : List Recv)
    (hs : s.state ≠ "ready") (hpre : s.handle_msgs pre = .ok s') :
    s.handle_line (.ounknown opcode) = .error (.protoErr opcode) ∧
    s.wait_ready (.data (pre ++ .ounknown opcode :: post) :: chunks) =
      .error (.protoErr opcode) := by
  refine ⟨rfl, ?_⟩
  have hmsgs : s.handle_msgs (pre ++ .ounknown opcode :: post) =
      .error (.protoErr opcode) := by
    rw [handle_msgs_append, hpre]
    rfl
  exact wait_ready_data_err hs hmsgs chunks

/-- C8 witness: a lone bogus-opcode record during the initial wait
aborts it with the protocol violation. -/
theorem unknown_opcode_is_fatal_witness :
    initSess.handle_line (.ounknown "bogus") = .error (.protoErr "bogus") ∧
    initSess.wait_ready [.data [.ounknown "bogus"]] = .error (.protoErr "bogus") :=
  unknown_opcode_is_fatal "bogus" initSess initSess [] [] [] (by decide) rfl

/-- C9 counterexample: with the CODESEARCH variable absent from the
environment, startup_codesearch is not a no-op: the os.environ lookup
raises KeyError before the guard is reached. -/
theorem codesearch_env_absent_raises :
    startup_codesearch none = .error .keyError := rfl

/-- C9 (amended): supervision is a no-op — returning without spawning,
sleeping or raising — when CODESEARCH is present but empty (falsy);
when the variable is entirely absent the lookup itself raises
KeyError. -/
theorem codesearch_env_empty_noop :
    startup_codesearch (some "") = .ok { spawned := false, slept := false } := rfl

/-- C6 counterexample: with the backend unreachable (the connect
attempt raises socket.error) and CODESEARCH absent from the
environment, the facade does not return an empty list: the KeyError
raised inside startup_codesearch escapes, because only socket.error is
caught. -/
theorem facade_raises_keyerror :
    search none .refuse .refuse "p" true ".*" ".*" [] = (.raised .keyError, 0) := rfl

/-- C6 (amended): provided the CODESEARCH variable is present (so the
supervisor's environment lookup cannot raise), a connect failure makes
the facade call the supervisor and retry the construction exactly
once: if the retry also fails with a socket error the facade returns
an empty list without raising, and if the retry connects the query
runs and the session is closed; when the variable is absent the
supervisor's KeyError escapes instead. -/
theorem facade_connect_failures_return_empty (v pattern : String)
    (fold_case : Bool) (file repo : String) (qchunks : List Recv) :
    search (some v) .refuse .refuse pattern fold_case file repo qchunks =
      (.ret [], 0) ∧
    search (some v) .refuse (.accept [.data [.oready]]) pattern fold_case file repo
      [.data [.oready]] = (.ret [], 1) := by
  obtain ⟨eff, heff⟩ := startup_present_ok v
  constructor
  · have hred : search (some v) .refuse .refuse pattern fold_case file repo qchunks =
        match startup_codesearch (some v) with
        | .error e => (.raised e, 0)
        | .ok _ => (.ret [], 0) := rfl
    rw [hred, heff]
  · have hred : search (some v) .refuse (.accept [.data [.oready]]) pattern
        fold_case file repo [.data [.oready]] =
        match startup_codesearch (some v) with
        | .error e => (.raised e, 0)
        | .ok _ => (.ret [], 1) := rfl
    rw [hred, heff]

/-- C7: the facade never closes a session more than once, and once a
session has been opened — by the first connect or by the
post-supervisor retry — every exit of the facade closes it exactly
once: if the delegated CodeSearch.search raises (decode failure,
protocol violation or connection error alike) the facade re-raises the
same error with the close already performed, if it returns the facade
returns its results with the close performed, and only a forever-
blocking read (which never exits) leaves the session open. -/
theorem session_close_discipline :
    (∀ (env : Option String) (a1 a2 : ConnectAttempt) (pattern : String)
        (fold_case : Bool) (file repo : String) (qchunks : List Recv),
      (search env a1 a2 pattern fold_case file repo qchunks).2 ≤ 1) ∧
    (∀ (env : Option String) (a1 a2 : ConnectAttempt) (pattern : String)
        (fold_case : Bool) (file repo : String) (qchunks : List Recv)
        (s : CodeSearch) (rest : List Recv),
      (tryOpen a1 = .ok (.opened s rest) ∨
        (tryOpen a1 = .error .socketErr ∧
          (∃ eff, startup_codesearch env = .ok eff) ∧
          tryOpen a2 = .ok (.opened s rest))) →
      (∃ e, s.search pattern fold_case file repo (rest ++ qchunks) = .error e ∧
          search env a1 a2 pattern fold_case file repo qchunks = (.raised e, 1)) ∨
      (∃ res s' rem,
          s.search pattern fold_case file repo (rest ++ qchunks) =
            .ok (.finished res s' rem) ∧
          search env a1 a2 pattern fold_case file repo qchunks = (.ret res, 1)) ∨
      (s.search pattern fold_case file repo (rest ++ qchunks) = .ok .starving ∧
          search env a1 a2 pattern fold_case file repo qchunks = (.blocked, 0))) := by
  constructor
  · intro env a1 a2 pattern fold_case file repo qchunks
    unfold search
    split
    · unfold facadeBody
      split <;> simp
    · simp
    · split
      · simp
      · split
        · unfold facadeBody
          split <;> simp
        · simp
        · simp
        · simp
    · simp
  · intro env a1 a2 pattern fold_case file repo qchunks s rest hopen
    have hfac : search env a1 a2 pattern fold_case file repo qchunks =
        facadeBody s pattern fold_case file repo (rest ++ qchunks) := by
      rcases hopen with h1 | ⟨h1, ⟨eff, heff⟩, h2⟩
      · unfold search
        rw [h1]
      · unfold search
        rw [h1, heff, h2]
    cases hs : s.search pattern fold_case file repo (rest ++ qchunks) with
    | error e =>
      refine Or.inl ⟨e, rfl, ?_⟩
      rw [hfac]
      unfold facadeBody
      rw [hs]
    | ok out =>
      cases out with
      | finished res s' rem =>
        refine Or.inr (Or.inl ⟨res, s', rem, rfl, ?_⟩)
        rw [hfac]
        unfold facadeBody
        rw [hs]
      | starving =>
        refine Or.inr (Or.inr ⟨rfl, ?_⟩)
        rw [hfac]
        unfold facadeBody
        rw [hs]

/-- C7 witness: a session opened by the first connect whose query
phase hits a malformed record makes the facade re-raise ValueError
with the close performed once. -/
theorem session_close_discipline_witness :
    (∃ e, CodeSearch.search ⟨"ready", [], none⟩ "p" true ".*" ".*"
          ([] ++ [.data [.malformed]]) = .error e ∧
        search none (.accept [.data [.oready]]) .refuse "p" true ".*" ".*"
          [.data [.malformed]] = (.raised e, 1)) ∨
    (∃ res s' rem, CodeSearch.search ⟨"ready", [], none⟩ "p" true ".*" ".*"
          ([] ++ [.data [.malformed]]) = .ok (.finished res s' rem) ∧
        search none (.accept [.data [.oready]]) .refuse "p" true ".*" ".*"
          [.data [.malformed]] = (.ret res, 1)) ∨
    (CodeSearch.search ⟨"ready", [], none⟩ "p" true ".*" ".*"
          ([] ++ [.data [.malformed]]) = .ok .starving ∧
        search none (.accept [.data [.oready]]) .refuse "p" true ".*" ".*"
          [.data [.malformed]] = (.blocked, 0)) :=
  session_close_discipline.2 none (.accept [.data [.oready]]) .refuse "p" true
    ".*" ".*" [.data [.malformed]] ⟨"ready", [], none⟩ [] (Or.inl rfl)

end Codesearch
